import Mathlib

/-!
Verification development for the ridge-regression module
(`supervised_learning/ridge_regression.py`).

Vectors are `List ℚ`, matrices are row-major `List (List ℚ)`; numpy's
floating-point arithmetic is idealised as exact rational arithmetic.
`np.linalg.svd` is an external oracle and is modelled as a function
parameter whose output is constrained by the documented SVD contract.
-/

abbrev Vec := List ℚ
abbrev Mat := List (List ℚ)

/-- Dot product of two vectors (numpy `a.dot(b)` on 1-d arrays). -/
def dot (a b : Vec) : ℚ := (List.zipWith (· * ·) a b).sum

/-- Elementwise vector addition. -/
def vadd (a b : Vec) : Vec := List.zipWith (· + ·) a b

/-- Elementwise vector subtraction. -/
def vsub (a b : Vec) : Vec := List.zipWith (· - ·) a b

/-- Scalar times vector. -/
def smulV (c : ℚ) (v : Vec) : Vec := v.map (fun x => c * x)

/-- Elementwise negation. -/
def negV (v : Vec) : Vec := v.map (fun x => -x)

/-- Column count of a row-major matrix (numpy `np.shape(M)[1]` for a
nonempty well-formed matrix). -/
def numCols (M : Mat) : ℕ := (M.headD []).length

/-- Matrix times vector (numpy `M.dot(v)`). -/
def matVec (M : Mat) (v : Vec) : Vec := M.map (fun r => dot r v)

/-- Row vector times matrix (numpy `v.dot(M)`), computed as the linear
combination of the rows of `M` with coefficients `v`. -/
def vecMat (v : Vec) (M : Mat) : Vec :=
  (List.zipWith (fun c r => smulV c r) v M).foldr vadd (List.replicate (numCols M) 0)

/-- Matrix product (numpy `A.dot(B)`). -/
def matMul (A B : Mat) : Mat := A.map (fun r => vecMat r B)

/-- Matrix transpose (numpy `M.T`). -/
def transposeM : Mat → Mat
  | [] => []
  | [r] => r.map (fun x => [x])
  | r :: rs => List.zipWith (fun x c => x :: c) r (transposeM rs)

/-- Identity matrix (numpy `np.identity n`). -/
def identityM (n : ℕ) : Mat :=
  (List.range n).map (fun i => (List.range n).map (fun j => if i = j then (1 : ℚ) else 0))

/-- Matrix addition. -/
def addMat (A B : Mat) : Mat := List.zipWith vadd A B

/-- Scalar times matrix. -/
def smulMat (c : ℚ) (A : Mat) : Mat := A.map (smulV c)

/-- Diagonal matrix from a vector (numpy `np.diag(S)` for 1-d `S`). -/
def diagM (s : Vec) : Mat :=
  (List.range s.length).map (fun i =>
    (List.range s.length).map (fun j => if i = j then s.getD i 0 else 0))

/-- Moore–Penrose pseudoinverse of a diagonal matrix: reciprocal of the
nonzero diagonal entries.  The code applies `np.linalg.pinv` only to
`np.diag(S)` with `S` the singular values, for which the pseudoinverse is
exactly this entrywise operation. -/
def pinvDiag (M : Mat) : Mat := M.map (fun r => r.map (fun x => if x = 0 then 0 else x⁻¹))

/-- The bias column of ones prepended to a design matrix
(`np.insert(X, 0, 1, axis=1)`). -/
def insertBias (X : Mat) : Mat := X.map (fun r => (1 : ℚ) :: r)

/-- A numpy array that is either 0-dimensional (a scalar) or 1-dimensional,
as needed to model `np.zeros(np.shape(self.w))` when `self.w` is `None`
(shape `()`, a 0-d zero) versus an actual weight vector. -/
inductive NpArr where
  | scalar : ℚ → NpArr
  | vec : Vec → NpArr
deriving DecidableEq

/-- Model of `np.zeros(np.shape(w))` for `w` either `None` (0-d zero) or a
1-d weight vector (zero vector of the same length). -/
def npZerosLike : Option Vec → NpArr
  | none => NpArr.scalar 0
  | some w => NpArr.vec (List.replicate w.length 0)

/-- Scalar multiplication on a possibly 0-d array. -/
def npSmul (c : ℚ) : NpArr → NpArr
  | NpArr.scalar x => NpArr.scalar (c * x)
  | NpArr.vec v => NpArr.vec (smulV c v)

/-- Broadcasting addition of a possibly 0-d array with a 1-d array,
following numpy broadcasting: a 0-d operand is added to every entry. -/
def npAddVec : NpArr → Vec → Vec
  | NpArr.scalar x, u => u.map (fun b => x + b)
  | NpArr.vec v, u => vadd v u

/-- Estimator state: the fields set by `RidgeRegression.__init__`.
`w = none` models `self.w = None` before any call to `fit`. -/
structure RR where
  w : Option Vec
  n_iterations : ℕ
  momentum : ℚ
  learning_rate : ℚ
  gradient_descent : Bool
  regularization_factor : ℚ
deriving DecidableEq

/-- `RidgeRegression(reg_factor)` with the constructor defaults
`n_iterations=100, momentum=0.3, learning_rate=0.001, gradient_descent=True`. -/
def mkRR (reg : ℚ) : RR :=
  { w := none, n_iterations := 100, momentum := 3/10, learning_rate := 1/1000,
    gradient_descent := true, regularization_factor := reg }

/-- Modelled from the spec: `SquareLoss.gradient` lives in
`utils/loss_functions.py`, which is not under `src/`; the spec states
the gradient of the squared loss as `-(y - Xw)·X`. -/
def lossGradient (y : Vec) (X : Mat) (w : Vec) : Vec :=
  negV (vecMat (vsub y (matVec X w)) X)

/-- One iteration's raw update: `self.square_loss.gradient(y, X, self.w)
+ self.regularization_factor * self.w`. -/
def gdUpdate (reg : ℚ) (X : Mat) (y : Vec) (w : Vec) : Vec :=
  vadd (lossGradient y X w) (smulV reg w)

/-- One iteration of the gradient-descent loop in `fit`:
`w_gradient = momentum * w_gradient + update; self.w -= learning_rate * w_gradient`.
The state is the pair `(self.w, w_gradient)`; the velocity is an `NpArr`
because its initial value may be the 0-d zero `np.zeros(np.shape(None))`. -/
def gdStep (reg mom lr : ℚ) (X : Mat) (y : Vec) (s : Vec × NpArr) : Vec × NpArr :=
  let update := gdUpdate reg X y s.1
  let wg := npAddVec (npSmul mom s.2) update
  (vsub s.1 (smulV lr wg), NpArr.vec wg)

/-- `RidgeRegression.fit(X, y)`.  Two external sources of values are passed
as parameters: `w0` stands for the draw `np.random.random((n_features,))`
and `svdFn` for the library routine `np.linalg.svd` (applied by the code to
`X.T.dot(X) + reg_factor * identity`, returning `U, S, V` where numpy's
third component is in fact the transpose `Vᵀ` of the right-singular-vector
matrix). -/
def fit (svdFn : Mat → Mat × Vec × Mat) (st : RR) (X : Mat) (y : Vec) (w0 : Vec) : RR :=
  let Xb := insertBias X
  let n_features := numCols Xb
  let wg0 := npZerosLike st.w
  if st.gradient_descent then
    let final := (gdStep st.regularization_factor st.momentum st.learning_rate Xb y)^[st.n_iterations] (w0, wg0)
    { st with w := some final.1 }
  else
    let A := addMat (matMul (transposeM Xb) Xb) (smulMat st.regularization_factor (identityM n_features))
    let t := svdFn A
    let U := t.1
    let S := t.2.1
    let Vh := t.2.2
    let Sd := diagM S
    let X_sq_reg_inv := matMul (matMul Vh (pinvDiag Sd)) (transposeM U)
    { st with w := some (matVec (matMul X_sq_reg_inv (transposeM Xb)) y) }

/-- `RidgeRegression.predict(X)`: prepend the bias column and compute
`X.dot(self.w)`.  The call fails (numpy raises) when `self.w` is still
`None` or when the widths disagree; failure is modelled as `none`. -/
def predict (st : RR) (X : Mat) : Option Vec :=
  match st.w with
  | none => none
  | some w =>
    let Xb := insertBias X
    if numCols Xb = w.length then some (matVec Xb w) else none

/-- `predict` paired with the estimator state after the call: the method
body only reads `self.w`, so the state is returned unchanged. -/
def predictS (st : RR) (X : Mat) : Option Vec × RR := (predict st X, st)

/-- The weight/velocity recursion exactly as the spec states it: velocity
starts as a zero VECTOR of the same shape as `w`, and each step computes
`update = -(y - Xw)·X + reg·w`, `velocity = momentum·velocity + update`,
`w = w - learning_rate·velocity`. -/
def specVel (reg mom lr : ℚ) (X : Mat) (y : Vec) (w0 : Vec) : ℕ → Vec × Vec
  | 0 => (w0, List.replicate w0.length 0)
  | k + 1 =>
    let p := specVel reg mom lr X y w0 k
    let v := vadd (smulV mom p.2) (gdUpdate reg X y p.1)
    (vsub p.1 (smulV lr v), v)

/-- The documented contract of `np.linalg.svd A = (U, S, Vh)` for a square
input: `U` and `Vh` are orthogonal, `S` is nonincreasing and nonnegative,
and `A = U · diag S · Vh`. -/
def IsSVD (A U : Mat) (S : Vec) (Vh : Mat) : Prop :=
  matMul (transposeM U) U = identityM A.length ∧
  matMul (transposeM Vh) Vh = identityM A.length ∧
  List.Chain' (· ≥ ·) S ∧
  (∀ s ∈ S, 0 ≤ s) ∧
  A = matMul (matMul U (diagM S)) Vh

/-- Model of `np.arange(start, stop, step)` with exact rational arithmetic:
`ceil((stop - start) / step)` evenly spaced values starting at `start`,
with `stop` excluded. -/
def arange (start stop step : ℚ) : List ℚ :=
  (List.range (Nat.ceil ((stop - start) / step))).map (fun i : ℕ => start + (i : ℚ) * step)

/-- The driver's candidate grid `np.arange(0, 0.3, 0.001)`. -/
def regGrid : List ℚ := arange 0 (3/10) (1/1000)

/-- One cross-validation tuple `(_X_train, _X_test, _y_train, _y_test)`. -/
structure Fold where
  Xtr : Mat
  Xte : Mat
  ytr : Vec
  yte : Vec

/-- The inputs the driver `main` receives from its external collaborators:
the train/test split of the generated dataset, the k-fold generator
(`k_fold_cross_validation_sets` lives in `utils/data_manipulation.py`,
not under `src/`, and is abstracted as a function parameter per the spec's
collaborator contract), and the random initial weights drawn inside each
`fit` call (`w0cv reg i` for the fit on fold `i` at candidate `reg`,
`w0final` for the final refit). -/
structure DriverEnv where
  Xtrain : Mat
  ytrain : Vec
  Xtest : Mat
  ytest : Vec
  kfolds : Mat → Vec → ℕ → List Fold
  w0cv : ℚ → ℕ → Vec
  w0final : Vec

/-- Modelled from the spec: `mean_squared_error` lives in
`utils/data_operation.py`, not under `src/`; the spec describes it as the
scalar mean of squared differences of two equal-length vectors. -/
def mean_squared_error (ytrue ypred : Vec) : ℚ :=
  ((List.zipWith (fun a b => (a - b) ^ 2) ytrue ypred).sum) / (ytrue.length : ℚ)

/-- A placeholder for `np.linalg.svd` in contexts where the code path never
calls it (the driver's estimators all use gradient descent). -/
def svdUnused : Mat → Mat × Vec × Mat := fun _ => ([], [], [])

/-- One fold of the driver's inner loop: fit a fresh
`RidgeRegression(reg_factor=r)` on the fold's training portion and return
the mean squared error of its predictions on the held-out portion. -/
def foldMSE (r : ℚ) (w0 : Vec) (f : Fold) : ℚ :=
  let clf := fit svdUnused (mkRR r) f.Xtr f.ytr w0
  mean_squared_error f.yte ((predict clf f.Xte).getD [])

/-- The driver's average cross-validation error for candidate strength `r`:
k = 10 folds are built, the fold errors are summed, and the sum is divided
by k. -/
def candidateErr (env : DriverEnv) (r : ℚ) : ℚ :=
  let sets := env.kfolds env.Xtrain env.ytrain 10
  ((sets.enum.map (fun p => foldMSE r (env.w0cv r p.1) p.2)).sum) / 10

/-- The list of `(regularization_factor, average mse)` pairs the candidate
loop produces, in grid order. -/
def driverErrs (env : DriverEnv) : List (ℚ × ℚ) :=
  regGrid.map (fun r => (r, candidateErr env r))

/-- One step of the running-minimum tracking
(`if mse < lowest_error: best_reg_factor = ...; lowest_error = mse`);
`none` in the second component models the initial `float("inf")`, which
every rational mse is below. -/
def selectStep (st : Option ℚ × Option ℚ) (re : ℚ × ℚ) : Option ℚ × Option ℚ :=
  match st.2 with
  | none => (some re.1, some re.2)
  | some low => if re.2 < low then (some re.1, some re.2) else st

/-- The state `(best_reg_factor, lowest_error)` after the candidate loop. -/
def driverSelect (env : DriverEnv) : Option ℚ × Option ℚ :=
  (driverErrs env).foldl selectStep (none, none)

/-- `best_reg_factor` after the loop. -/
def bestRegFactor (env : DriverEnv) : Option ℚ := (driverSelect env).1

/-- `lowest_error` after the loop. -/
def lowestError (env : DriverEnv) : Option ℚ := (driverSelect env).2

/-- The final estimator: `RidgeRegression(reg_factor=best_reg_factor)`
fitted on the full training set. -/
def finalClf (env : DriverEnv) : RR :=
  fit svdUnused (mkRR ((bestRegFactor env).getD 0)) env.Xtrain env.ytrain env.w0final

/-- The test-set mean squared error of the final model
(`mse = mean_squared_error(y_test, y_pred)`, line 110; it is displayed only
in the plot title). -/
def driverTestMSE (env : DriverEnv) : ℚ :=
  mean_squared_error env.ytest ((predict (finalClf env) env.Xtest).getD [])

/-- The error value interpolated into the console line
`"Mean squared error: %s (given by reg. factor: %s)"` — the code passes
`lowest_error` there, not the test-set `mse`. -/
def driverPrintedError (env : DriverEnv) : ℚ := (lowestError env).getD 0

/-- Reference recursion for the running minimum: fold the remaining pairs
against a current best pair, replacing it exactly on strict improvement. -/
def runSel : ℚ × ℚ → List (ℚ × ℚ) → ℚ × ℚ
  | acc, [] => acc
  | acc, x :: xs => runSel (if x.2 < acc.2 then x else acc) xs

/-- Concrete design matrix for the closed-form counterexample:
ten samples of one feature. -/
def X0c : Mat :=
  [[23/10], [1/10], [3/2], [9/10], [6/5], [6/5], [6/5], [6/5], [6/5], [6/5]]

/-- Concrete targets for the closed-form counterexample. -/
def y0c : Vec := [1, 0, 0, 0, 0, 0, 0, 0, 0, 0]

/-- Left singular vectors of `XᵗX + 3I = [[13,12],[12,20]]` for `X0c` with
bias column: an orthogonal (non-symmetric) rotation. -/
def U0c : Mat := [[3/5, -4/5], [4/5, 3/5]]

/-- Singular values of `[[13,12],[12,20]]`, in decreasing order. -/
def S0c : Vec := [29, 4]

/-- Third component of the SVD in numpy's convention: the TRANSPOSE `Vᵀ` of
the right-singular-vector matrix (equal to `U0cᵀ` for a symmetric input). -/
def Vh0c : Mat := [[3/5, 4/5], [-4/5, 3/5]]

/-- The true inverse of `[[13,12],[12,20]]` (determinant 116). -/
def Ainv0c : Mat := [[5/29, -3/29], [-3/29, 13/116]]

/-- The oracle returning the factorization above, standing for
`np.linalg.svd` at the one matrix the counterexample feeds it. -/
def svd0c : Mat → Mat × Vec × Mat := fun _ => (U0c, S0c, Vh0c)

/-- A fresh `RidgeRegression(reg_factor=3, gradient_descent=False)`. -/
def cfRR3 : RR := { mkRR 3 with gradient_descent := false }

/-- The trivial fold used in the driver counterexample: a single
zero sample on both sides. -/
def fold0 : Fold := { Xtr := [[0]], Xte := [[0]], ytr := [0], yte := [0] }

/-- Concrete driver environment for the reporting counterexample: the
k-fold generator returns ten copies of the trivial zero fold, every random
initialization is the zero vector, and the held-out test set is the single
point `(x, y) = (1, 1)`. -/
def env0 : DriverEnv :=
  { Xtrain := [[0]], ytrain := [0], Xtest := [[1]], ytest := [1],
    kfolds := fun _ _ _ => [fold0, fold0, fold0, fold0, fold0, fold0, fold0, fold0, fold0, fold0],
    w0cv := fun _ _ => [0, 0], w0final := [0, 0] }

/-! Helper lemmas: shapes of the vector operations. -/

theorem length_vadd (a b : Vec) : (vadd a b).length = min a.length b.length :=
  List.length_zipWith _ _ _

theorem length_vsub (a b : Vec) : (vsub a b).length = min a.length b.length :=
  List.length_zipWith _ _ _

theorem length_smulV (c : ℚ) (v : Vec) : (smulV c v).length = v.length :=
  List.length_map _ _

theorem length_negV (v : Vec) : (negV v).length = v.length :=
  List.length_map _ _

theorem length_matVec (M : Mat) (v : Vec) : (matVec M v).length = M.length :=
  List.length_map _ _

theorem length_insertBias (X : Mat) : (insertBias X).length = X.length :=
  List.length_map _ _

theorem length_matMul (A B : Mat) : (matMul A B).length = A.length :=
  List.length_map _ _

theorem foldr_vadd_length (L : ℕ) :
    ∀ l : List Vec, (∀ u ∈ l, u.length = L) →
      (l.foldr vadd (List.replicate L 0)).length = L := by
  intro l
  induction l with
  | nil => intro _; simp
  | cons u t ih =>
    intro h
    have ht : (t.foldr vadd (List.replicate L 0)).length = L :=
      ih (fun x hx => h x (List.mem_cons_of_mem _ hx))
    have hu : u.length = L := h u (List.mem_cons_self _ _)
    simp [List.foldr_cons, length_vadd, ht, hu]

theorem zipWith_smulV_len (L : ℕ) :
    ∀ (v : Vec) (M : Mat), (∀ r ∈ M, r.length = L) →
      ∀ u ∈ List.zipWith (fun c r => smulV c r) v M, u.length = L := by
  intro v
  induction v with
  | nil => intro M _ u hu; simp at hu
  | cons c v ih =>
    intro M hM u hu
    cases M with
    | nil => simp at hu
    | cons r t =>
      rcases List.mem_cons.mp hu with h | h
      · subst h
        rw [length_smulV]
        exact hM r (List.mem_cons_self _ _)
      · exact ih t (fun x hx => hM x (List.mem_cons_of_mem _ hx)) u h

theorem vecMat_length (v : Vec) (M : Mat) (L : ℕ)
    (hM : ∀ r ∈ M, r.length = L) (h0 : numCols M = L) :
    (vecMat v M).length = L := by
  unfold vecMat
  rw [h0]
  exact foldr_vadd_length L _ (zipWith_smulV_len L v M hM)

theorem insertBias_rowLen (X : Mat) (m : ℕ) (h : ∀ r ∈ X, r.length = m) :
    ∀ r ∈ insertBias X, r.length = m + 1 := by
  intro r hr
  rcases List.mem_map.mp hr with ⟨s, hs, rfl⟩
  simp [h s hs]

theorem numCols_insertBias (X : Mat) (m : ℕ) (hne : X ≠ [])
    (h : ∀ r ∈ X, r.length = m) : numCols (insertBias X) = m + 1 := by
  cases X with
  | nil => exact absurd rfl hne
  | cons r t =>
    simp [insertBias, numCols, h r (List.mem_cons_self _ _)]

theorem lossGradient_length (y : Vec) (X : Mat) (w : Vec) (L : ℕ)
    (hM : ∀ r ∈ X, r.length = L) (h0 : numCols X = L) :
    (lossGradient y X w).length = L := by
  unfold lossGradient
  rw [length_negV]
  exact vecMat_length _ _ _ hM h0

theorem gdUpdate_length (reg : ℚ) (X : Mat) (y w : Vec) (L : ℕ)
    (hM : ∀ r ∈ X, r.length = L) (h0 : numCols X = L) (hw : w.length = L) :
    (gdUpdate reg X y w).length = L := by
  unfold gdUpdate
  rw [length_vadd, lossGradient_length y X w L hM h0, length_smulV, hw, min_self]

theorem specVel_length (reg mom lr : ℚ) (X : Mat) (y w0 : Vec) (L : ℕ)
    (hM : ∀ r ∈ X, r.length = L) (h0 : numCols X = L) (hw0 : w0.length = L) :
    ∀ k, (specVel reg mom lr X y w0 k).1.length = L ∧
      (specVel reg mom lr X y w0 k).2.length = L := by
  intro k
  induction k with
  | zero => exact ⟨hw0, by simp [specVel, hw0]⟩
  | succ k ih =>
    have hv : (vadd (smulV mom (specVel reg mom lr X y w0 k).2)
        (gdUpdate reg X y (specVel reg mom lr X y w0 k).1)).length = L := by
      rw [length_vadd, length_smulV, ih.2,
        gdUpdate_length reg X y _ L hM h0 ih.1, min_self]
    constructor
    · show (vsub (specVel reg mom lr X y w0 k).1 _).length = L
      rw [length_vsub, ih.1, length_smulV, hv, min_self]
    · exact hv

/-! Helper lemmas: the 0-d zero velocity broadcasts like a zero vector. -/

theorem vadd_replicate_zero : ∀ (u : Vec) (L : ℕ), u.length = L →
    vadd (List.replicate L 0) u = u := by
  intro u
  induction u with
  | nil => intro L h; subst h; rfl
  | cons a t ih =>
    intro L h
    subst h
    simp only [List.length_cons, List.replicate_succ, vadd, List.zipWith_cons_cons, zero_add]
    exact congrArg _ (ih t.length rfl)

theorem npAdd_scalar_zero (c : ℚ) (u : Vec) :
    npAddVec (npSmul c (NpArr.scalar 0)) u = u := by
  simp [npSmul, npAddVec]

theorem npAdd_vec_zeros (c : ℚ) (L : ℕ) (u : Vec) (h : u.length = L) :
    npAddVec (npSmul c (NpArr.vec (List.replicate L 0))) u = u := by
  have : smulV c (List.replicate L 0) = List.replicate L 0 := by
    simp [smulV, List.map_replicate]
  simp only [npSmul, npAddVec, this]
  exact vadd_replicate_zero u L h

/-- After the first loop iteration the code's state agrees exactly,
step for step, with the recursion the spec writes down (velocity a zero
vector of the weight's length). -/
theorem gdIter_spec (reg mom lr : ℚ) (X : Mat) (y w0 : Vec) (L : ℕ)
    (hM : ∀ r ∈ X, r.length = L) (h0 : numCols X = L) (hw0 : w0.length = L) :
    ∀ k, (gdStep reg mom lr X y)^[k + 1] (w0, NpArr.scalar 0) =
      ((specVel reg mom lr X y w0 (k + 1)).1,
        NpArr.vec (specVel reg mom lr X y w0 (k + 1)).2) := by
  intro k
  induction k with
  | zero =>
    rw [Function.iterate_one]
    show gdStep reg mom lr X y (w0, NpArr.scalar 0) = _
    have hup : (gdUpdate reg X y w0).length = L := gdUpdate_length reg X y w0 L hM h0 hw0
    have hz : smulV mom (List.replicate w0.length 0) = List.replicate w0.length 0 := by
      simp [smulV, List.map_replicate]
    simp only [gdStep, npAdd_scalar_zero, specVel, hz]
    rw [vadd_replicate_zero _ w0.length (by rw [hup, hw0])]
  | succ k ih =>
    rw [Function.iterate_succ_apply', ih]
    show gdStep reg mom lr X y _ = _
    simp only [gdStep, npSmul, npAddVec, specVel]

/-- The same recursion is reached when the velocity starts as an actual
zero vector of the weight's length. -/
theorem gdIterZ_spec (reg mom lr : ℚ) (X : Mat) (y w0 : Vec) (L : ℕ)
    (hM : ∀ r ∈ X, r.length = L) (h0 : numCols X = L) (hw0 : w0.length = L) :
    ∀ k, (gdStep reg mom lr X y)^[k + 1] (w0, NpArr.vec (List.replicate w0.length 0)) =
      ((specVel reg mom lr X y w0 (k + 1)).1,
        NpArr.vec (specVel reg mom lr X y w0 (k + 1)).2) := by
  intro k
  induction k with
  | zero =>
    rw [Function.iterate_one]
    show gdStep reg mom lr X y (w0, NpArr.vec (List.replicate w0.length 0)) = _
    have hup : (gdUpdate reg X y w0).length = L := gdUpdate_length reg X y w0 L hM h0 hw0
    have hz : smulV mom (List.replicate w0.length 0) = List.replicate w0.length 0 := by
      simp [smulV, List.map_replicate]
    simp only [gdStep, specVel, hz]
    rw [npAdd_vec_zeros mom w0.length _ (by rw [hup, hw0]),
      vadd_replicate_zero _ w0.length (by rw [hup, hw0])]
  | succ k ih =>
    rw [Function.iterate_succ_apply', ih]
    show gdStep reg mom lr X y _ = _
    simp only [gdStep, npSmul, npAddVec, specVel]

/-- Claim C2: for an untrained estimator in gradient-descent mode,
`fit(X, y)` prepends the bias column, starts from the random draw `w0` of
length m+1 (entries in [0,1)), and for exactly `n_iterations` steps applies
`update = -(y - Xw)·X + regularization_factor·w`,
`velocity = momentum·velocity + update`, `w = w - learning_rate·velocity`
with the velocity starting at zero; the resulting weights are exactly the
claimed recursion `specVel`. -/
theorem fit_gd_matches_spec_recursion (svdFn : Mat → Mat × Vec × Mat) (st : RR)
    (X : Mat) (y w0 : Vec) (n m : ℕ)
    (hfresh : st.w = none) (hgd : st.gradient_descent = true)
    (hX : X.length = n) (hne : X ≠ []) (hm : ∀ r ∈ X, r.length = m)
    (hy : y.length = n) (hw0 : w0.length = m + 1)
    (hw01 : ∀ c ∈ w0, 0 ≤ c ∧ c < 1) :
    (fit svdFn st X y w0).w =
      some ((specVel st.regularization_factor st.momentum st.learning_rate
        (insertBias X) y w0 st.n_iterations).1) := by
  have hrows := insertBias_rowLen X m hm
  have hcols := numCols_insertBias X m hne hm
  simp only [fit, hfresh, hgd, npZerosLike, if_true]
  cases hk : st.n_iterations with
  | zero => simp [specVel]
  | succ k =>
    rw [gdIter_spec st.regularization_factor st.momentum st.learning_rate
      (insertBias X) y w0 (m + 1) hrows hcols hw0 k]

/-- Witness for C2 at a concrete input. -/
theorem fit_gd_matches_spec_recursion_wit :
    (({ w := none, n_iterations := 1, momentum := 3/10, learning_rate := 1/1000,
        gradient_descent := true, regularization_factor := 1/10 } : RR).w = none) ∧
    ([[(0 : ℚ)]] ≠ []) ∧ (∀ r ∈ [[(0 : ℚ)]], r.length = 1) ∧
    ([(0 : ℚ), 0].length = 1 + 1) ∧ (∀ c ∈ [(0 : ℚ), 0], 0 ≤ c ∧ c < 1) ∧
    (fit svdUnused
        { w := none, n_iterations := 1, momentum := 3/10, learning_rate := 1/1000,
          gradient_descent := true, regularization_factor := 1/10 }
        [[(0 : ℚ)]] [0] [0, 0]).w =
      some ((specVel (1/10) (3/10) (1/1000) (insertBias [[(0 : ℚ)]]) [0] [0, 0] 1).1) :=
  ⟨rfl, by simp, by simp, by simp, by simp,
    fit_gd_matches_spec_recursion svdUnused _ [[(0 : ℚ)]] [0] [0, 0] 1 1
      rfl rfl rfl (by simp) (by simp) rfl (by simp) (by simp)⟩

/-- Claim C8: in gradient-descent mode `fit` always terminates and the
update loop is driven purely by the iteration budget: with
`n_iterations = k` the final weights are the k-fold iterate of the step
function, the 0-fold iterate is the initial state (no work before the
loop), and each budget increment performs exactly one more unconditional
step — there is no convergence test, no early stop, and no extra step. -/
theorem fit_gd_iteration_count (svdFn : Mat → Mat × Vec × Mat)
    (pw : Option Vec) (k : ℕ) (mom lr reg : ℚ) (X : Mat) (y w0 : Vec) :
    (fit svdFn ⟨pw, k, mom, lr, true, reg⟩ X y w0 =
      { w := some ((gdStep reg mom lr (insertBias X) y)^[k] (w0, npZerosLike pw)).1,
        n_iterations := k, momentum := mom, learning_rate := lr,
        gradient_descent := true, regularization_factor := reg }) ∧
    ((gdStep reg mom lr (insertBias X) y)^[0] (w0, npZerosLike pw) = (w0, npZerosLike pw)) ∧
    (∀ j, (gdStep reg mom lr (insertBias X) y)^[j + 1] (w0, npZerosLike pw) =
      gdStep reg mom lr (insertBias X) y
        ((gdStep reg mom lr (insertBias X) y)^[j] (w0, npZerosLike pw))) :=
  ⟨by simp [fit], rfl, fun j => Function.iterate_succ_apply' _ _ _⟩

/-- Claim C10: on the first `fit` of a fresh estimator the velocity is
created as `np.zeros(np.shape(None))`, a 0-d zero scalar rather than a
length-(m+1) zero vector; yet the weight iterates produced from the 0-d
zero velocity coincide, step for step, with those produced from a
length-(m+1) zero-vector velocity, because the scalar zero broadcasts in
`momentum * w_gradient + update`. -/
theorem velocity_broadcast_equiv (reg mom lr : ℚ) (X : Mat) (y w0 : Vec) (m : ℕ)
    (hne : X ≠ []) (hm : ∀ r ∈ X, r.length = m) (hw0 : w0.length = m + 1) :
    npZerosLike (none : Option Vec) = NpArr.scalar 0 ∧
    ∀ k, ((gdStep reg mom lr (insertBias X) y)^[k] (w0, NpArr.scalar 0)).1 =
      ((gdStep reg mom lr (insertBias X) y)^[k]
        (w0, NpArr.vec (List.replicate w0.length 0))).1 := by
  have hrows := insertBias_rowLen X m hm
  have hcols := numCols_insertBias X m hne hm
  refine ⟨rfl, fun k => ?_⟩
  cases k with
  | zero => rfl
  | succ k =>
    rw [gdIter_spec reg mom lr (insertBias X) y w0 (m + 1) hrows hcols hw0 k,
      gdIterZ_spec reg mom lr (insertBias X) y w0 (m + 1) hrows hcols hw0 k]

/-- Witness for C10 at a concrete input. -/
theorem velocity_broadcast_equiv_wit :
    ([[(0 : ℚ)]] ≠ []) ∧ (∀ r ∈ [[(0 : ℚ)]], r.length = 1) ∧
    ([(0 : ℚ), 0].length = 1 + 1) ∧
    ((gdStep (1/10) (3/10) (1/1000) (insertBias [[(0 : ℚ)]]) [0])^[2]
        ([0, 0], NpArr.scalar 0)).1 =
      ((gdStep (1/10) (3/10) (1/1000) (insertBias [[(0 : ℚ)]]) [0])^[2]
        ([0, 0], NpArr.vec (List.replicate ([(0 : ℚ), 0]).length 0))).1 :=
  ⟨by simp, by simp, by simp,
    (velocity_broadcast_equiv (1/10) (3/10) (1/1000) [[(0 : ℚ)]] [0] [0, 0] 1
      (by simp) (by simp) rfl).2 2⟩

/-- Claim C9: `predict` is pure with respect to the estimator state: after
a `fit`, the state coming out of a `predict` call is the state going in
(no field is written), and two `predict` calls with the same `X` return
identical results. -/
theorem predict_pure (svdFn : Mat → Mat × Vec × Mat) (st : RR)
    (X : Mat) (y w0 : Vec) (X' : Mat) :
    (predictS (fit svdFn st X y w0) X').2 = fit svdFn st X y w0 ∧
    (predictS ((predictS (fit svdFn st X y w0) X').2) X').1 =
      (predictS (fit svdFn st X y w0) X').1 :=
  ⟨rfl, rfl⟩

/-- In either training mode, `fit` stores a weight vector of length m+1
(bias included).  For the closed-form branch this only needs the shape of
the `Vh` returned by the svd oracle at the one matrix the code feeds it. -/
theorem fit_w_length (svdFn : Mat → Mat × Vec × Mat) (st : RR)
    (X : Mat) (y w0 : Vec) (m : ℕ)
    (hfresh : st.w = none) (hne : X ≠ []) (hm : ∀ r ∈ X, r.length = m)
    (hw0 : w0.length = m + 1)
    (hVh : ((svdFn (addMat (matMul (transposeM (insertBias X)) (insertBias X))
        (smulMat st.regularization_factor
          (identityM (numCols (insertBias X)))))).2.2).length = m + 1) :
    ∃ w', (fit svdFn st X y w0).w = some w' ∧ w'.length = m + 1 := by
  have hrows := insertBias_rowLen X m hm
  have hcols := numCols_insertBias X m hne hm
  cases hgd : st.gradient_descent with
  | true =>
    simp only [fit, hgd, if_true, hfresh, npZerosLike]
    refine ⟨_, rfl, ?_⟩
    cases hk : st.n_iterations with
    | zero => simpa using hw0
    | succ k =>
      rw [gdIter_spec st.regularization_factor st.momentum st.learning_rate
        (insertBias X) y w0 (m + 1) hrows hcols hw0 k]
      exact (specVel_length st.regularization_factor st.momentum st.learning_rate
        (insertBias X) y w0 (m + 1) hrows hcols hw0 (k + 1)).1
  | false =>
    simp only [fit, hgd, if_false, Bool.false_eq_true]
    refine ⟨_, rfl, ?_⟩
    rw [length_matVec, length_matMul, length_matMul, length_matMul]
    exact hVh

/-- Claim C3: after `fit(X, y)` on a fresh estimator (either training
mode), `predict(X)` succeeds and returns the vector
`(bias-augmented X) · w`, whose length is n, the number of rows of X. -/
theorem predict_after_fit_length (svdFn : Mat → Mat × Vec × Mat) (st : RR)
    (X : Mat) (y w0 : Vec) (n m : ℕ)
    (hfresh : st.w = none) (hX : X.length = n) (hne : X ≠ [])
    (hm : ∀ r ∈ X, r.length = m) (hy : y.length = n) (hw0 : w0.length = m + 1)
    (hVh : ((svdFn (addMat (matMul (transposeM (insertBias X)) (insertBias X))
        (smulMat st.regularization_factor
          (identityM (numCols (insertBias X)))))).2.2).length = m + 1) :
    ∃ w', (fit svdFn st X y w0).w = some w' ∧
      predict (fit svdFn st X y w0) X = some (matVec (insertBias X) w') ∧
      (matVec (insertBias X) w').length = n := by
  obtain ⟨w', hw', hlen⟩ := fit_w_length svdFn st X y w0 m hfresh hne hm hw0 hVh
  refine ⟨w', hw', ?_, ?_⟩
  · simp only [predict, hw', numCols_insertBias X m hne hm, hlen, if_true]
  · rw [length_matVec, length_insertBias, hX]

/-- Witness for C3 at a concrete input. -/
theorem predict_after_fit_length_wit :
    (({ w := none, n_iterations := 1, momentum := 3/10, learning_rate := 1/1000,
        gradient_descent := true, regularization_factor := 1/10 } : RR).w = none) ∧
    ([[(0 : ℚ)]].length = 1) ∧ ([[(0 : ℚ)]] ≠ []) ∧
    (∀ r ∈ [[(0 : ℚ)]], r.length = 1) ∧ ([(0 : ℚ)].length = 1) ∧
    ([(0 : ℚ), 0].length = 1 + 1) ∧
    (∃ w', (fit (fun _ => ([], [], [[1, 0], [0, 1]]))
        { w := none, n_iterations := 1, momentum := 3/10, learning_rate := 1/1000,
          gradient_descent := true, regularization_factor := 1/10 }
        [[(0 : ℚ)]] [0] [0, 0]).w = some w' ∧
      predict (fit (fun _ => ([], [], [[1, 0], [0, 1]]))
          { w := none, n_iterations := 1, momentum := 3/10, learning_rate := 1/1000,
            gradient_descent := true, regularization_factor := 1/10 }
          [[(0 : ℚ)]] [0] [0, 0]) [[(0 : ℚ)]] =
        some (matVec (insertBias [[(0 : ℚ)]]) w') ∧
      (matVec (insertBias [[(0 : ℚ)]]) w').length = 1) :=
  ⟨rfl, rfl, by simp, by simp, rfl, rfl,
    predict_after_fit_length (fun _ => ([], [], [[1, 0], [0, 1]])) _
      [[(0 : ℚ)]] [0] [0, 0] 1 1 rfl rfl (by simp) (by simp) rfl rfl rfl⟩

/-- Claim C7: `predict(X)` fails (the failure is modelled as `none`) when
`fit` has never been called, and after a `fit` it fails exactly when the
column count of `X` differs from the feature width used at fit time. -/
theorem predict_dimension_guard (svdFn : Mat → Mat × Vec × Mat) (st : RR)
    (X : Mat) (y w0 : Vec) (X' : Mat) (m m' : ℕ)
    (hfresh : st.w = none) (hne : X ≠ []) (hm : ∀ r ∈ X, r.length = m)
    (hw0 : w0.length = m + 1)
    (hne' : X' ≠ []) (hm' : ∀ r ∈ X', r.length = m')
    (hVh : ((svdFn (addMat (matMul (transposeM (insertBias X)) (insertBias X))
        (smulMat st.regularization_factor
          (identityM (numCols (insertBias X)))))).2.2).length = m + 1) :
    predict st X' = none ∧
    (predict (fit svdFn st X y w0) X' = none ↔ m' ≠ m) := by
  obtain ⟨w', hw', hlen⟩ := fit_w_length svdFn st X y w0 m hfresh hne hm hw0 hVh
  constructor
  · simp [predict, hfresh]
  · simp only [predict, hw', numCols_insertBias X' m' hne' hm', hlen]
    by_cases h : m' = m
    · subst h
      simp
    · rw [if_neg (fun hc => h (Nat.succ_injective hc))]
      simp [h]

/-- Witness for C7 at a concrete input. -/
theorem predict_dimension_guard_wit :
    (({ w := none, n_iterations := 1, momentum := 3/10, learning_rate := 1/1000,
        gradient_descent := true, regularization_factor := 1/10 } : RR).w = none) ∧
    ([[(0 : ℚ)]] ≠ []) ∧ (∀ r ∈ [[(0 : ℚ)]], r.length = 1) ∧
    ([(0 : ℚ), 0].length = 1 + 1) ∧
    ([[(0 : ℚ), 0]] ≠ []) ∧ (∀ r ∈ [[(0 : ℚ), 0]], r.length = 2) ∧
    (predict ({ w := none, n_iterations := 1, momentum := 3/10, learning_rate := 1/1000,
                gradient_descent := true, regularization_factor := 1/10 } : RR)
        [[(0 : ℚ), 0]] = none ∧
      (predict (fit (fun _ => ([], [], [[1, 0], [0, 1]]))
          { w := none, n_iterations := 1, momentum := 3/10, learning_rate := 1/1000,
            gradient_descent := true, regularization_factor := 1/10 }
          [[(0 : ℚ)]] [0] [0, 0]) [[(0 : ℚ), 0]] = none ↔ 2 ≠ 1)) :=
  ⟨rfl, by simp, by simp, rfl, by simp, by simp,
    predict_dimension_guard (fun _ => ([], [], [[1, 0], [0, 1]])) _
      [[(0 : ℚ)]] [0] [0, 0] [[(0 : ℚ), 0]] 1 2
      rfl (by simp) (by simp) rfl (by simp) (by simp) rfl⟩

/-! Helper lemmas: the running-minimum selection loop. -/

theorem foldl_selectStep_some : ∀ (xs : List (ℚ × ℚ)) (a b : ℚ),
    xs.foldl selectStep (some a, some b) =
      (some (runSel (a, b) xs).1, some (runSel (a, b) xs).2) := by
  intro xs
  induction xs with
  | nil => intro a b; rfl
  | cons x t ih =>
    intro a b
    show List.foldl selectStep (selectStep (some a, some b) x) t = _
    by_cases h : x.2 < b
    · have hstep : runSel (a, b) (x :: t) = runSel (x.1, x.2) t := by
        show runSel (if x.2 < b then x else (a, b)) t = _
        rw [if_pos h, Prod.mk.eta]
      have hsel : selectStep (some a, some b) x = (some x.1, some x.2) := by
        show (if x.2 < b then (some x.1, some x.2) else (some a, some b)) = _
        rw [if_pos h]
      rw [hsel, ih x.1 x.2, hstep]
    · have hstep : runSel (a, b) (x :: t) = runSel (a, b) t := by
        show runSel (if x.2 < b then x else (a, b)) t = _
        rw [if_neg h]
      have hsel : selectStep (some a, some b) x = (some a, some b) := by
        show (if x.2 < b then (some x.1, some x.2) else (some a, some b)) = _
        rw [if_neg h]
      rw [hsel, ih a b, hstep]

theorem foldl_selectStep_start (x : ℚ × ℚ) (xs : List (ℚ × ℚ)) :
    (x :: xs).foldl selectStep (none, none) =
      (some (runSel x xs).1, some (runSel x xs).2) := by
  show List.foldl selectStep (selectStep (none, none) x) xs = _
  have hsel : selectStep (none, none) x = (some x.1, some x.2) := rfl
  rw [hsel, foldl_selectStep_some xs x.1 x.2]

theorem runSel_min : ∀ (xs : List (ℚ × ℚ)) (acc : ℚ × ℚ),
    (runSel acc xs).2 ≤ acc.2 ∧ ∀ x ∈ xs, (runSel acc xs).2 ≤ x.2 := by
  intro xs
  induction xs with
  | nil => intro acc; exact ⟨le_refl _, by simp⟩
  | cons x t ih =>
    intro acc
    show (runSel (if x.2 < acc.2 then x else acc) t).2 ≤ acc.2 ∧ _
    have hacc : (if x.2 < acc.2 then x else acc).2 ≤ acc.2 ∧
        (if x.2 < acc.2 then x else acc).2 ≤ x.2 := by
      by_cases h : x.2 < acc.2
      · rw [if_pos h]; exact ⟨le_of_lt h, le_refl _⟩
      · rw [if_neg h]; exact ⟨le_refl _, le_of_not_lt h⟩
    obtain ⟨h1, h2⟩ := ih (if x.2 < acc.2 then x else acc)
    refine ⟨le_trans h1 hacc.1, ?_⟩
    intro z hz
    rcases List.mem_cons.mp hz with hzx | hzt
    · subst hzx; exact le_trans h1 hacc.2
    · exact h2 z hzt

theorem runSel_first : ∀ (xs : List (ℚ × ℚ)) (acc : ℚ × ℚ),
    (runSel acc xs = acc ∧ ∀ x ∈ xs, acc.2 ≤ x.2) ∨
    (∃ l₁ l₂, xs = l₁ ++ runSel acc xs :: l₂ ∧ (runSel acc xs).2 < acc.2 ∧
      ∀ x ∈ l₁, (runSel acc xs).2 < x.2) := by
  intro xs
  induction xs with
  | nil => intro acc; exact Or.inl ⟨rfl, by simp⟩
  | cons x t ih =>
    intro acc
    by_cases h : x.2 < acc.2
    · have hrw : runSel acc (x :: t) = runSel x t := by
        show runSel (if x.2 < acc.2 then x else acc) t = _
        rw [if_pos h]
      rcases ih x with ⟨heq, hmin⟩ | ⟨l₁, l₂, hsplit, hlt, hstrict⟩
      · refine Or.inr ⟨[], t, ?_, ?_, by simp⟩
        · rw [hrw, heq]; rfl
        · rw [hrw, heq]; exact h
      · refine Or.inr ⟨x :: l₁, l₂, ?_, ?_, ?_⟩
        · rw [hrw, List.cons_append]; exact congrArg _ hsplit
        · rw [hrw]; exact lt_trans hlt h
        · intro z hz
          rcases List.mem_cons.mp hz with hzx | hzl
          · subst hzx; rw [hrw]; exact hlt
          · rw [hrw]; exact hstrict z hzl
    · have hrw : runSel acc (x :: t) = runSel acc t := by
        show runSel (if x.2 < acc.2 then x else acc) t = _
        rw [if_neg h]
      rcases ih acc with ⟨heq, hmin⟩ | ⟨l₁, l₂, hsplit, hlt, hstrict⟩
      · refine Or.inl ⟨by rw [hrw, heq], ?_⟩
        intro z hz
        rcases List.mem_cons.mp hz with hzx | hzt
        · subst hzx; exact le_of_not_lt h
        · exact hmin z hzt
      · refine Or.inr ⟨x :: l₁, l₂, ?_, ?_, ?_⟩
        · rw [hrw, List.cons_append]; exact congrArg _ hsplit
        · rw [hrw]; exact hlt
        · intro z hz
          rcases List.mem_cons.mp hz with hzx | hzl
          · subst hzx; rw [hrw]; exact lt_of_lt_of_le hlt (le_of_not_lt h)
          · rw [hrw]; exact hstrict z hzl

/-! Helper lemmas: the candidate grid and the driver's selection. -/

theorem regGrid_count : Nat.ceil ((3/10 - 0 : ℚ) / (1/1000)) = 300 := by
  rw [show ((3/10 - 0 : ℚ) / (1/1000)) = ((300 : ℕ) : ℚ) by norm_num]
  exact Nat.ceil_natCast 300

theorem regGrid_eq : regGrid = (List.range 300).map (fun i : ℕ => (i : ℚ) * (1/1000)) := by
  unfold regGrid arange
  rw [regGrid_count]
  simp only [zero_add]

theorem regGrid_ne_nil : regGrid ≠ [] := by
  rw [regGrid_eq]
  simp

/-- The driver's selection loop lands on a grid candidate whose average
cross-validation error is minimal, and every earlier candidate has a
strictly larger error (so the first minimum is kept). -/
theorem driverSelect_spec (env : DriverEnv) :
    ∃ l₁ l₂ r, driverErrs env = l₁ ++ (r, candidateErr env r) :: l₂ ∧
      r ∈ regGrid ∧
      driverSelect env = (some r, some (candidateErr env r)) ∧
      (∀ r' ∈ regGrid, candidateErr env r ≤ candidateErr env r') ∧
      (∀ p ∈ l₁, candidateErr env r < p.2) := by
  obtain ⟨hd, tl, hgrid⟩ := List.exists_cons_of_ne_nil regGrid_ne_nil
  have herrs : driverErrs env =
      (hd, candidateErr env hd) :: tl.map (fun r => (r, candidateErr env r)) := by
    rw [driverErrs, hgrid, List.map_cons]
  have hfold : driverSelect env =
      (some (runSel (hd, candidateErr env hd) (tl.map (fun r => (r, candidateErr env r)))).1,
        some (runSel (hd, candidateErr env hd) (tl.map (fun r => (r, candidateErr env r)))).2) := by
    rw [driverSelect, herrs, foldl_selectStep_start]
  rcases runSel_first (tl.map (fun r => (r, candidateErr env r))) (hd, candidateErr env hd)
    with ⟨heq, hmin⟩ | ⟨l₁, l₂, hsplit, hlt, hstrict⟩
  · refine ⟨[], tl.map (fun r => (r, candidateErr env r)), hd, by simpa using herrs,
      by rw [hgrid]; exact List.mem_cons_self _ _, ?_, ?_, by simp⟩
    · rw [hfold, heq]
    · intro r' hr'
      rw [hgrid] at hr'
      rcases List.mem_cons.mp hr' with hr | hr
      · subst hr; exact le_refl _
      · have : (r', candidateErr env r') ∈ tl.map (fun r => (r, candidateErr env r)) :=
          List.mem_map.mpr ⟨r', hr, rfl⟩
        have h2 := hmin _ this
        simpa using h2
  · set P := runSel (hd, candidateErr env hd) (tl.map (fun r => (r, candidateErr env r))) with hP
    have hPmem : P ∈ tl.map (fun r => (r, candidateErr env r)) := by
      rw [hsplit]
      exact List.mem_append_right _ (List.mem_cons_self _ _)
    obtain ⟨ρ, hρ, hPeq⟩ := List.mem_map.mp hPmem
    have hmin := runSel_min (tl.map (fun r => (r, candidateErr env r))) (hd, candidateErr env hd)
    refine ⟨(hd, candidateErr env hd) :: l₁, l₂, ρ, ?_, ?_, ?_, ?_, ?_⟩
    · rw [herrs, List.cons_append]
      refine congrArg _ ?_
      rw [hPeq]
      exact hsplit
    · rw [hgrid]; exact List.mem_cons_of_mem _ hρ
    · rw [hfold, ← hPeq]
    · intro r' hr'
      have hP2 : P.2 = candidateErr env ρ := by rw [← hPeq]
      rw [hgrid] at hr'
      rcases List.mem_cons.mp hr' with hr | hr
      · subst hr
        have := hmin.1
        rw [hP2] at this
        simpa using this
      · have hmem : (r', candidateErr env r') ∈ tl.map (fun r => (r, candidateErr env r)) :=
          List.mem_map.mpr ⟨r', hr, rfl⟩
        have := hmin.2 _ hmem
        rw [hP2] at this
        simpa using this
    · intro p hp
      have hP2 : P.2 = candidateErr env ρ := by rw [← hPeq]
      rcases List.mem_cons.mp hp with hph | hpl
      · subst hph
        have := hlt
        rw [hP2] at this
        simpa using this
      · have := hstrict p hpl
        rw [hP2] at this
        exact this

/-- Claim C6: the driver selects as `best_reg_factor` a grid candidate
whose average held-out mean squared error over the k folds is lowest, and
every candidate encountered before it has strictly larger average error —
ties are resolved in favour of the first-encountered candidate because the
comparison with the running minimum is strict less-than. -/
theorem driver_selects_first_lowest (env : DriverEnv) :
    ∃ l₁ l₂ r, driverErrs env = l₁ ++ (r, candidateErr env r) :: l₂ ∧
      r ∈ regGrid ∧
      bestRegFactor env = some r ∧
      lowestError env = some (candidateErr env r) ∧
      (∀ r' ∈ regGrid, candidateErr env r ≤ candidateErr env r') ∧
      (∀ p ∈ l₁, candidateErr env r < p.2) := by
  obtain ⟨l₁, l₂, r, hsplit, hmem, hsel, hmin, hstrict⟩ := driverSelect_spec env
  exact ⟨l₁, l₂, r, hsplit, hmem, by rw [bestRegFactor, hsel], by rw [lowestError, hsel],
    hmin, hstrict⟩

/-- Claim C5, counterexample: 0.300 is a strength from 0.000 to 0.300 in
steps of 0.001 (it is 300 × 0.001), yet it is not in the driver's grid —
`np.arange(0, 0.3, 0.001)` excludes its stop value. -/
theorem regGrid_endpoint_missing :
    ((3 : ℚ)/10 = 300 * (1/1000)) ∧ (3 : ℚ)/10 ∉ regGrid := by
  refine ⟨by norm_num, ?_⟩
  rw [regGrid_eq]
  intro h
  obtain ⟨i, hi, hEq⟩ := List.mem_map.mp h
  have hi' : i < 300 := by simpa using hi
  have hcast : (i : ℚ) = 300 := by
    have h1000 : ((i : ℚ) * (1/1000)) * 1000 = (3/10 : ℚ) * 1000 := by rw [hEq]
    have : (i : ℚ) = (3/10 : ℚ) * 1000 := by field_simp at h1000 ⊢; linarith
    rw [this]; norm_num
  have : i = 300 := by exact_mod_cast hcast
  omega

/-- Claim C5 (amended): the candidate grid consists of the 300 strengths
0.000, 0.001, …, 0.299 — every multiple of 0.001 from 0.000 up to but
excluding 0.300 — and for each candidate the driver builds k = 10
cross-validation folds from the training set and averages the fold errors
over k = 10. -/
theorem regGrid_spec :
    regGrid = (List.range 300).map (fun i : ℕ => (i : ℚ) * (1/1000)) ∧
    regGrid.length = 300 ∧
    (0 : ℚ) ∈ regGrid ∧
    (299/1000 : ℚ) ∈ regGrid ∧
    (∀ env : DriverEnv, driverErrs env = regGrid.map (fun r => (r, candidateErr env r))) ∧
    (∀ (env : DriverEnv) (r : ℚ), candidateErr env r =
      (((env.kfolds env.Xtrain env.ytrain 10).enum.map
        (fun p => foldMSE r (env.w0cv r p.1) p.2)).sum) / 10) := by
  refine ⟨regGrid_eq, ?_, ?_, ?_, fun _ => rfl, fun _ _ => rfl⟩
  · rw [regGrid_eq, List.length_map, List.length_range]
  · rw [regGrid_eq]
    refine List.mem_map.mpr ⟨0, ?_, ?_⟩
    · exact List.mem_range.mpr (by omega)
    · norm_num
  · rw [regGrid_eq]
    refine List.mem_map.mpr ⟨299, ?_, ?_⟩
    · exact List.mem_range.mpr (by omega)
    · norm_num

/-! Helper lemmas: evaluating the driver on the concrete environment `env0`. -/

theorem gdStep_first0 (r mom lr : ℚ) :
    gdStep r mom lr [[1, 0]] [0] ([0, 0], NpArr.scalar 0) = ([0, 0], NpArr.vec [0, 0]) := by
  norm_num [gdStep, gdUpdate, lossGradient, matVec, vecMat, numCols, dot,
    vsub, vadd, smulV, negV, npAddVec, npSmul, List.replicate]

theorem gdStep_fix0 (r mom lr : ℚ) :
    gdStep r mom lr [[1, 0]] [0] ([0, 0], NpArr.vec [0, 0]) = ([0, 0], NpArr.vec [0, 0]) := by
  norm_num [gdStep, gdUpdate, lossGradient, matVec, vecMat, numCols, dot,
    vsub, vadd, smulV, negV, npAddVec, npSmul, List.replicate]

theorem iter_zero_w (r mom lr : ℚ) (k : ℕ) :
    ((gdStep r mom lr [[1, 0]] [0])^[k] ([0, 0], NpArr.scalar 0)).1 = [0, 0] := by
  cases k with
  | zero => rfl
  | succ k =>
    rw [Function.iterate_succ_apply, gdStep_first0,
      Function.iterate_fixed (gdStep_fix0 r mom lr) k]

theorem fit_zeroData_w (r : ℚ) :
    (fit svdUnused (mkRR r) [[0]] [0] [0, 0]).w = some [0, 0] := by
  have h : insertBias [[0]] = [[1, 0]] := rfl
  simp only [fit, mkRR, npZerosLike, if_true, h]
  exact congrArg some (iter_zero_w r (3/10) (1/1000) 100)

theorem foldMSE_fold0 (r : ℚ) (w0 : Vec) (hw0 : w0 = [0, 0]) :
    foldMSE r w0 fold0 = 0 := by
  subst hw0
  have hfit := fit_zeroData_w r
  simp only [foldMSE, fold0]
  rw [predict, hfit]
  norm_num [insertBias, numCols, matVec, dot, mean_squared_error]

theorem candidateErr_env0 (r : ℚ) : candidateErr env0 r = 0 := by
  simp only [candidateErr, env0, List.enum, List.enumFrom, List.map, List.sum_cons,
    List.sum_nil]
  rw [foldMSE_fold0 r _ rfl]
  norm_num

theorem printed_env0 : driverPrintedError env0 = 0 := by
  obtain ⟨l₁, l₂, r, hsplit, hmem, hsel, hmin, hstrict⟩ := driverSelect_spec env0
  rw [driverPrintedError, lowestError, hsel, candidateErr_env0]
  rfl

theorem testMSE_env0 : driverTestMSE env0 = 1 := by
  have hfit : (finalClf env0).w = some [0, 0] := fit_zeroData_w _
  rw [driverTestMSE, predict, hfit]
  norm_num [env0, insertBias, numCols, matVec, dot, mean_squared_error]

/-- Claim C4, counterexample: a concrete driver run in which the console
error line prints 0 (the lowest cross-validation average error) while the
mean squared error of the final model on the held-out test set is 1 — the
printed report does not state the test-set MSE. -/
theorem driver_printed_error_not_test_mse :
    driverPrintedError env0 = 0 ∧ driverTestMSE env0 = 1 ∧
    driverPrintedError env0 ≠ driverTestMSE env0 := by
  refine ⟨printed_env0, testMSE_env0, ?_⟩
  rw [printed_env0, testMSE_env0]
  norm_num

/-- Claim C4 (amended): after refitting the final estimator, the
console-printed error report states `lowest_error` — the smallest average
cross-validation error over the candidate grid, achieved at the reported
best factor — not the final model's test-set mean squared error (the
latter is shown only in the plot title). -/
theorem driver_prints_lowest_cv_error (env : DriverEnv) :
    ∃ r ∈ regGrid, driverPrintedError env = candidateErr env r ∧
      lowestError env = some (candidateErr env r) ∧
      bestRegFactor env = some r ∧
      (∀ r' ∈ regGrid, candidateErr env r ≤ candidateErr env r') := by
  obtain ⟨l₁, l₂, r, hsplit, hmem, hsel, hmin, hstrict⟩ := driverSelect_spec env
  refine ⟨r, hmem, ?_, by rw [lowestError, hsel], by rw [bestRegFactor, hsel], hmin⟩
  rw [driverPrintedError, lowestError, hsel]
  rfl

/-! Helper lemmas: evaluating the closed-form branch on the concrete
counterexample data. -/

theorem id2_eval : identityM 2 = [[1, 0], [0, 1]] := rfl

theorem diagS0_eval : diagM S0c = [[29, 0], [0, 4]] := rfl

theorem A0_eval :
    addMat (matMul (transposeM (insertBias X0c)) (insertBias X0c))
      (smulMat 3 (identityM 2)) = [[13, 12], [12, 20]] := by
  rw [id2_eval]
  norm_num [X0c, insertBias, transposeM, matMul, vecMat, numCols, addMat,
    smulMat, smulV, vadd, List.replicate]

theorem pinvS0_eval : pinvDiag (diagM S0c) = [[1/29, 0], [0, 1/4]] := by
  rw [diagS0_eval]
  norm_num [pinvDiag]

theorem codeInv_eval :
    matMul (matMul Vh0c (pinvDiag (diagM S0c))) (transposeM U0c) =
      [[-107/725, 99/725], [-99/725, 197/2900]] := by
  rw [pinvS0_eval]
  norm_num [Vh0c, U0c, transposeM, matMul, vecMat, numCols, smulV, vadd,
    List.replicate]

theorem fitCF_weights :
    (fit svd0c cfRR3 X0c y0c []).w = some [1207/7250, 571/29000] := by
  show some _ = _
  rw [show matMul (matMul ((svd0c _).2.2) (pinvDiag (diagM (svd0c _).2.1)))
      (transposeM ((svd0c _).1)) = [[-107/725, 99/725], [-99/725, 197/2900]] from codeInv_eval]
  norm_num [X0c, y0c, insertBias, transposeM, matMul, matVec, vecMat, numCols,
    dot, smulV, vadd, List.replicate]

theorem isSVD0 :
    IsSVD (addMat (matMul (transposeM (insertBias X0c)) (insertBias X0c))
      (smulMat 3 (identityM 2))) U0c S0c Vh0c := by
  rw [IsSVD, A0_eval]
  refine ⟨?_, ?_, ?_, ?_, ?_⟩
  · show _ = identityM 2
    rw [id2_eval]
    norm_num [U0c, transposeM, matMul, vecMat, numCols, smulV, vadd, List.replicate]
  · show _ = identityM 2
    rw [id2_eval]
    norm_num [Vh0c, transposeM, matMul, vecMat, numCols, smulV, vadd, List.replicate]
  · norm_num [S0c, List.chain'_cons]
  · norm_num [S0c]
  · rw [diagS0_eval]
    norm_num [U0c, Vh0c, matMul, vecMat, numCols, smulV, vadd, List.replicate]

/-- Claim C1 (code bug): `U0c, S0c, Vh0c` is a valid SVD — in numpy's
convention, with the third component the transpose of the right singular
vectors — of `XᵗX + 3I` for the ten-sample design matrix `X0c` (bias
included), and `Ainv0c` is the true inverse of that matrix; yet the
closed-form branch of `fit`, which computes `V·Σ⁺·Uᵗ·Xᵗ·y` with `V` bound
to numpy's third output `Vᵗ`, returns `[1207/7250, 571/29000]`, while the
claimed solution `(XᵗX + λI)⁻¹·Xᵗ·y` is `[-19/290, 179/1160]`.  The
correctly reconstructed pseudoinverse `Vᵗᵀ·Σ⁺·Uᵗ` does equal the true
inverse, confirming the transposition slip. -/
theorem closed_form_svd_bug :
    IsSVD (addMat (matMul (transposeM (insertBias X0c)) (insertBias X0c))
      (smulMat 3 (identityM 2))) U0c S0c Vh0c ∧
    matMul (addMat (matMul (transposeM (insertBias X0c)) (insertBias X0c))
      (smulMat 3 (identityM 2))) Ainv0c = identityM 2 ∧
    (fit svd0c cfRR3 X0c y0c []).w = some [1207/7250, 571/29000] ∧
    matVec Ainv0c (matVec (transposeM (insertBias X0c)) y0c) = [-19/290, 179/1160] ∧
    matMul (matMul (transposeM Vh0c) (pinvDiag (diagM S0c))) (transposeM U0c) = Ainv0c ∧
    ([1207/7250, 571/29000] : Vec) ≠ ([-19/290, 179/1160] : Vec) := by
  refine ⟨isSVD0, ?_, fitCF_weights, ?_, ?_, ?_⟩
  · rw [A0_eval, id2_eval]
    norm_num [Ainv0c, matMul, vecMat, numCols, smulV, vadd, List.replicate]
  · norm_num [Ainv0c, X0c, y0c, insertBias, transposeM, matVec, dot]
  · rw [pinvS0_eval]
    norm_num [Ainv0c, Vh0c, U0c, transposeM, matMul, vecMat, numCols, smulV,
      vadd, List.replicate]
  · norm_num

